import Mathlib

/-!
Verification development for the fTDD feature-extraction code
(`getfTDDfeat_v2.py`): a shallow embedding over the reals of the
fused time-domain descriptor pipeline (windowing driver
`getfTDDfeat_v2` and moment extractor `KSM1`), together with theorems
settling the specification claims about it.

Numeric model: IEEE floating-point arithmetic is idealised as real
arithmetic (`np.sqrt` is `Real.sqrt`, `np.log` is `Real.log`, the
float power `** 0.1` is `Real.rpow`); `np.spacing(1)` is the exact
rational `2 ^ (-52)`.  A 2D numpy array is a `Mat`: an explicit row
and column count with a total entry function.
-/

/-- A 2D numeric array: `rows × cols`, with a total entry function
(entries outside the shape are irrelevant junk, as usual in a shallow
embedding; all operations below only read in-range entries). -/
structure Mat where
  rows : ℕ
  cols : ℕ
  entry : ℕ → ℕ → ℝ

/-- `np.transpose`. -/
def transposeM (M : Mat) : Mat :=
  ⟨M.cols, M.rows, fun i j => M.entry j i⟩

/-- `np.diff(·, n=1, axis=0)`: first difference along the sample axis;
the result has one row fewer. -/
noncomputable def diffRows (M : Mat) : Mat :=
  ⟨M.rows - 1, M.cols, fun i j => M.entry (i + 1) j - M.entry i j⟩

/-- `np.concatenate([np.zeros((1, cols)), M], axis=0)`: prepend one
zero row. -/
noncomputable def padZeroRow (M : Mat) : Mat :=
  ⟨M.rows + 1, M.cols, fun i j => if i = 0 then 0 else M.entry (i - 1) j⟩

/-- The first-difference array `d1` of `KSM1`:
`np.diff(np.concatenate([np.zeros((1,channels)), np.diff(S,n=1,axis=0)],axis=0), n=1, axis=0)`. -/
noncomputable def d1of (S : Mat) : Mat :=
  diffRows (padZeroRow (diffRows S))

/-- The second-difference array `d2` of `KSM1`, built from `d1` by the
same pad-then-diff pattern. -/
noncomputable def d2of (S : Mat) : Mat :=
  diffRows (padZeroRow (diffRows (d1of S)))

/-- The zeroth moment of channel `j` before the `/0.1` normalisation:
`np.sqrt(np.sum(S**2, axis=0)) ** 0.1`. -/
noncomputable def m0pre (S : Mat) (j : ℕ) : ℝ :=
  Real.sqrt (Finset.sum (Finset.range S.rows) fun i => (S.entry i j) ^ 2) ^ (0.1 : ℝ)

/-- `m0 = np.sqrt(np.sum(S**2,axis=0)) ** 0.1 / 0.1` for channel `j`. -/
noncomputable def m0val (S : Mat) (j : ℕ) : ℝ :=
  m0pre S j / 0.1

/-- `m2 = np.sqrt(np.sum(d1**2,axis=0)/(samples-1)) ** 0.1 / 0.1`. -/
noncomputable def m2val (S : Mat) (j : ℕ) : ℝ :=
  Real.sqrt ((Finset.sum (Finset.range (d1of S).rows) fun i => ((d1of S).entry i j) ^ 2) /
    ((S.rows : ℝ) - 1)) ^ (0.1 : ℝ) / 0.1

/-- `m4 = np.sqrt(np.sum(d2**2,axis=0)/(samples-1)) ** 0.1 / 0.1`. -/
noncomputable def m4val (S : Mat) (j : ℕ) : ℝ :=
  Real.sqrt ((Finset.sum (Finset.range (d2of S).rows) fun i => ((d2of S).entry i j) ^ 2) /
    ((S.rows : ℝ) - 1)) ^ (0.1 : ℝ) / 0.1

/-- Numerator of the sparseness ratio: `m0`. -/
noncomputable def sparsiNum (S : Mat) (j : ℕ) : ℝ :=
  m0val S j

/-- Denominator of the sparseness ratio:
`np.sqrt(np.abs((m0-m2)*(m0-m4)))`. -/
noncomputable def sparsiDen (S : Mat) (j : ℕ) : ℝ :=
  Real.sqrt (abs ((m0val S j - m2val S j) * (m0val S j - m4val S j)))

/-- Sparseness: `m0 / np.sqrt(np.abs((m0-m2)*(m0-m4)))`. -/
noncomputable def sparsiVal (S : Mat) (j : ℕ) : ℝ :=
  sparsiNum S j / sparsiDen S j

/-- Numerator of the irregularity factor: `m2`. -/
noncomputable def IRFnum (S : Mat) (j : ℕ) : ℝ :=
  m2val S j

/-- Denominator of the irregularity factor: `np.sqrt(m0*m4)`. -/
noncomputable def IRFden (S : Mat) (j : ℕ) : ℝ :=
  Real.sqrt (m0val S j * m4val S j)

/-- Irregularity factor: `m2 / np.sqrt(m0*m4)`. -/
noncomputable def IRFval (S : Mat) (j : ℕ) : ℝ :=
  IRFnum S j / IRFden S j

/-- Waveform length ratio:
`np.sum(np.abs(d1),axis=0) / np.sum(np.abs(d2),axis=0)`. -/
noncomputable def WLRval (S : Mat) (j : ℕ) : ℝ :=
  (Finset.sum (Finset.range (d1of S).rows) fun i => abs ((d1of S).entry i j)) /
  (Finset.sum (Finset.range (d2of S).rows) fun i => abs ((d2of S).entry i j))

/-- The transpose guard at the head of `KSM1`:
`if channels > samples: S = np.transpose(S)`. -/
def orient (S : Mat) : Mat :=
  if S.cols > S.rows then transposeM S else S

/-- Body of `KSM1` after the transpose guard:
`Feat = np.log(np.abs(np.concatenate((m0, m0-m2, m0-m4, sparsi, IRF, WLR), axis=0))).flatten()`.
Each block is a length-`channels` column, so the flattened vector is
moment-major: all channels of `m0`, then all channels of `m0-m2`, etc. -/
noncomputable def KSM1body (S : Mat) : List ℝ :=
  ((List.range S.cols).map fun j => Real.log (abs (m0val S j)))
  ++ (((List.range S.cols).map fun j => Real.log (abs (m0val S j - m2val S j)))
  ++ (((List.range S.cols).map fun j => Real.log (abs (m0val S j - m4val S j)))
  ++ (((List.range S.cols).map fun j => Real.log (abs (sparsiVal S j)))
  ++ (((List.range S.cols).map fun j => Real.log (abs (IRFval S j)))
  ++ ((List.range S.cols).map fun j => Real.log (abs (WLRval S j)))))))

/-- `KSM1`: time-domain power spectral moments of a window, six
features per channel. -/
noncomputable def KSM1 (S0 : Mat) : List ℝ :=
  KSM1body (orient S0)

/-- `np.spacing(1)`, the IEEE double gap above 1: `2^(-52)`. -/
noncomputable def spacing1 : ℝ := 1 / 2 ^ 52

/-- The nonlinear transform fed to the second `KSM1` call:
`np.log(W**2 + np.spacing(1)) ** 2`, elementwise. -/
noncomputable def logTrans (W : Mat) : Mat :=
  ⟨W.rows, W.cols, fun i j => (Real.log ((W.entry i j) ^ 2 + spacing1)) ^ 2⟩

/-- `num = -2*np.multiply(ebp, efp)` where `ebp = KSM1(W)` and
`efp = KSM1(np.log(W**2+np.spacing(1))**2)`. -/
noncomputable def numOf (W : Mat) : List ℝ :=
  List.zipWith (fun a b => -2 * (a * b)) (KSM1 W) (KSM1 (logTrans W))

/-- `den = np.multiply(efp,efp) + np.multiply(ebp,ebp)` for the same
`ebp`, `efp`. -/
noncomputable def denOf (W : Mat) : List ℝ :=
  List.zipWith (fun a b => b * b + a * a) (KSM1 W) (KSM1 (logTrans W))

/-- The numpy row slice `x[a:b, :]` (with `0 ≤ a ≤ b`): out-of-range
bounds are clamped to the row count, as numpy slicing does. -/
def sliceRows (x : Mat) (a b : ℕ) : Mat :=
  ⟨min b x.rows - min a x.rows, x.cols, fun i j => x.entry (min a x.rows + i) j⟩

/-- One iteration of the feature loop at current-window start `st`
(so `en = st + winsize`): computes `num`, `den` on the lagged window
`x[st-steps*wininc : en-steps*wininc, :]` and `num2`, `den2` on the
current window `x[st:en, :]`, and returns
`np.multiply(num-den, num2-den2)`. -/
noncomputable def bodyRow (x : Mat) (steps winsize wininc st : ℕ) : List ℝ :=
  List.zipWith (fun a b => a * b)
    (List.zipWith (fun a b => a - b)
      (numOf (sliceRows x (st - steps * wininc) (st + winsize - steps * wininc)))
      (denOf (sliceRows x (st - steps * wininc) (st + winsize - steps * wininc))))
    (List.zipWith (fun a b => a - b)
      (numOf (sliceRows x st (st + winsize)))
      (denOf (sliceRows x st (st + winsize))))

/-- The feature loop: `count` remaining iterations, current-window
start `st`; `st` advances by `wininc` each iteration, mirroring the
mutable `st`/`en` of the source. -/
noncomputable def featRows (x : Mat) (steps winsize wininc : ℕ) : ℕ → ℕ → List (List ℝ)
  | 0, _ => []
  | Nat.succ n, st => bodyRow x steps winsize wininc st :: featRows x steps winsize wininc n (st + wininc)

/-- `numwin = np.int(np.floor((datasize - winsize)/wininc) + 1)`
(valid for `winsize ≤ datasize`, the regime of every claim). -/
def numwinOf (datasize winsize wininc : ℕ) : ℕ :=
  (datasize - winsize) / wininc + 1

/-- `getfTDDfeat_v2` on a 2D input: the list of per-window fused
feature rows, the loop running `numwin - steps` times starting at
`st = steps*wininc`. -/
noncomputable def getfTDDfeat_v2 (x : Mat) (steps winsize wininc : ℕ) : List (List ℝ) :=
  featRows x steps winsize wininc (numwinOf x.rows winsize wininc - steps) (steps * wininc)

/-- The 1D-to-2D coercion `x = x[:, np.newaxis]` applied to a 1D
input: a single-column matrix. -/
def colMat (v : List ℝ) : Mat :=
  ⟨v.length, 1, fun i _ => v.getD i 0⟩

/-- `getfTDDfeat_v2` on a 1D input: the source first reshapes it to a
single-column 2D array, then runs the same pipeline. -/
noncomputable def getfTDDfeat_v2_1d (v : List ℝ) (steps winsize wininc : ℕ) : List (List ℝ) :=
  getfTDDfeat_v2 (colMat v) steps winsize wininc

/-- Elementwise scaling `k * S` of a window. -/
noncomputable def scaleM (k : ℝ) (S : Mat) : Mat :=
  ⟨S.rows, S.cols, fun i j => k * S.entry i j⟩

/-- A single-channel window holding the constant value `c` over `n`
samples. -/
def constMat (n : ℕ) (c : ℝ) : Mat :=
  ⟨n, 1, fun _ _ => c⟩

/-- A feature matrix (list of rows) has shape `(r, c)`. -/
def hasShape (m : List (List ℝ)) (r c : ℕ) : Prop :=
  m.length = r ∧ ∀ row ∈ m, row.length = c

/-- A quotient `a / b` is of the `0/0` indeterminate kind (the IEEE
NaN-producing case for a division). -/
def zeroOverZero (a b : ℝ) : Prop :=
  a = 0 ∧ b = 0

/-! ### Structural lemmas -/

theorem transposeM_transposeM (M : Mat) : transposeM (transposeM M) = M := rfl

theorem orient_of_le (S : Mat) (h : S.cols ≤ S.rows) : orient S = S :=
  if_neg (by omega)

theorem orient_transposeM (S : Mat) (h : S.cols < S.rows) : orient (transposeM S) = S := by
  unfold orient
  rw [if_pos (show (transposeM S).rows < (transposeM S).cols from h)]
  rfl

theorem orient_cols (S : Mat) : (orient S).cols = min S.cols S.rows := by
  unfold orient
  split
  · simp only [transposeM]
    omega
  · omega

theorem KSM1body_length (S : Mat) : (KSM1body S).length = 6 * S.cols := by
  simp [KSM1body]
  ring

theorem KSM1_length (S0 : Mat) : (KSM1 S0).length = 6 * min S0.cols S0.rows := by
  unfold KSM1
  rw [KSM1body_length, orient_cols]

theorem logTrans_cols (W : Mat) : (logTrans W).cols = W.cols := rfl

theorem logTrans_rows (W : Mat) : (logTrans W).rows = W.rows := rfl

theorem numOf_length (W : Mat) : (numOf W).length = 6 * min W.cols W.rows := by
  simp [numOf, KSM1_length, logTrans]

theorem denOf_length (W : Mat) : (denOf W).length = 6 * min W.cols W.rows := by
  simp [denOf, KSM1_length, logTrans]

theorem sliceRows_cols (x : Mat) (a b : ℕ) : (sliceRows x a b).cols = x.cols := rfl

theorem sliceRows_rows (x : Mat) (a b : ℕ) (hab : a ≤ b) (hb : b ≤ x.rows) :
    (sliceRows x a b).rows = b - a := by
  simp only [sliceRows]
  omega

theorem bodyRow_length_raw (x : Mat) (s w inc st : ℕ) :
    (bodyRow x s w inc st).length =
      min (6 * min (sliceRows x (st - s * inc) (st + w - s * inc)).cols
             (sliceRows x (st - s * inc) (st + w - s * inc)).rows)
          (6 * min (sliceRows x st (st + w)).cols (sliceRows x st (st + w)).rows) := by
  simp [bodyRow, numOf_length, denOf_length]

theorem bodyRow_length (x : Mat) {s w inc st : ℕ} (h1 : s * inc ≤ st)
    (h2 : st + w ≤ x.rows) (h3 : x.cols ≤ w) :
    (bodyRow x s w inc st).length = x.cols * 6 := by
  have hcur : (sliceRows x st (st + w)).rows = w := by
    rw [sliceRows_rows x st (st + w) (by omega) h2]
    omega
  have hlag : (sliceRows x (st - s * inc) (st + w - s * inc)).rows = w := by
    rw [sliceRows_rows x (st - s * inc) (st + w - s * inc) (by omega) (by omega)]
    omega
  rw [bodyRow_length_raw, hcur, hlag, sliceRows_cols, sliceRows_cols]
  omega

theorem featRows_length (x : Mat) (s w inc : ℕ) :
    ∀ (n st : ℕ), (featRows x s w inc n st).length = n := by
  intro n
  induction n with
  | zero => intro st; simp [featRows]
  | succ m ih => intro st; simp [featRows, ih]

theorem featRows_getElem (x : Mat) (s w inc : ℕ) :
    ∀ {n i : ℕ} (st : ℕ), i < n →
      (featRows x s w inc n st)[i]? = some (bodyRow x s w inc (st + i * inc)) := by
  intro n
  induction n with
  | zero => intro i st hi; omega
  | succ m ih =>
    intro i st hi
    cases i with
    | zero => simp [featRows]
    | succ k =>
      have hk : k < m := by omega
      have e : st + inc + k * inc = st + (k + 1) * inc := by ring
      simp only [featRows, List.getElem?_cons_succ]
      rw [ih (st + inc) hk, e]

theorem featRows_forall_length (x : Mat) {s w inc : ℕ} (hcw : x.cols ≤ w) :
    ∀ (n st : ℕ), s * inc ≤ st → (∀ i, i < n → st + i * inc + w ≤ x.rows) →
      ∀ r ∈ featRows x s w inc n st, r.length = x.cols * 6 := by
  intro n
  induction n with
  | zero => intro st _ _ r hr; simp [featRows] at hr
  | succ m ih =>
    intro st hst hbound r hr
    simp only [featRows, List.mem_cons] at hr
    rcases hr with hr | hr
    · subst hr
      exact bodyRow_length x hst (by simpa using hbound 0 (by omega)) hcw
    · refine ih (st + inc) (by omega) ?_ r hr
      intro i hi
      have h := hbound (i + 1) (by omega)
      have e : (i + 1) * inc = i * inc + inc := by ring
      rw [e] at h
      linarith

theorem window_bound (d w inc s i : ℕ) (hinc : 0 < inc) (hw : w ≤ d)
    (hi : i < numwinOf d w inc - s) : (i + s) * inc + w ≤ d := by
  unfold numwinOf at hi
  set q := (d - w) / inc with hq
  have h1 : i + s ≤ q := by omega
  have h2 : (i + s) * inc ≤ d - w := by
    rw [hq] at h1
    exact (Nat.le_div_iff_mul_le hinc).mp h1
  have h3 : (i + s) * inc + w ≤ d - w + w := Nat.add_le_add_right h2 w
  rw [Nat.sub_add_cancel hw] at h3
  exact h3

/-- Shared shape lemma: for `winsize ≤ datasize`, `wininc ≥ 1` and
`Nsignals ≤ winsize` the output is a `(numwin - steps) × (Nsignals*6)`
matrix. -/
theorem getfTDD_shape (x : Mat) (steps winsize wininc : ℕ) (hwd : winsize ≤ x.rows)
    (hinc : 1 ≤ wininc) (hcw : x.cols ≤ winsize) :
    hasShape (getfTDDfeat_v2 x steps winsize wininc)
      (numwinOf x.rows winsize wininc - steps) (x.cols * 6) := by
  constructor
  · exact featRows_length x steps winsize wininc _ _
  · intro r hr
    refine featRows_forall_length x hcw _ (steps * wininc) le_rfl ?_ r hr
    intro i hi
    have hb := window_bound x.rows winsize wininc steps i hinc hwd hi
    have e : (i + steps) * wininc = i * wininc + steps * wininc := by ring
    omega

/-- Concrete input used by several witnesses: a `4 × 1` signal. -/
def wMat : Mat := ⟨4, 1, fun i _ => (i : ℝ)⟩

/-- Concrete input for the C2 counterexample: a `2 × 2` signal, i.e.
more channels than the window size `winsize = 1`. -/
def cexMat : Mat := ⟨2, 2, fun _ _ => 1⟩

/-! ### Claims C2, C8, C9, C10 -/

/-- C2 (counterexample): with `x` of shape `(2, 2)`, `steps = 1`,
`winsize = 1`, `wininc = 1` — all parameter constraints of the claim
hold (`winsize ≤ datasize`, `1 ≤ steps ≤ numwin = 2`, `wininc ≥ 1`) —
the output does NOT have shape `(numwin - steps, Nsignals * 6)`:
`KSM1`'s transpose guard fires on each `1 × 2` window, so the feature
row has length `6`, not `Nsignals * 6 = 12`. -/
theorem C2_shape_counterexample :
    ¬ hasShape (getfTDDfeat_v2 cexMat 1 1 1) (numwinOf cexMat.rows 1 1 - 1)
      (cexMat.cols * 6) := by
  rintro ⟨hlen, hrows⟩
  have e : getfTDDfeat_v2 cexMat 1 1 1 = [bodyRow cexMat 1 1 1 1] := by
    show featRows cexMat 1 1 1 (numwinOf cexMat.rows 1 1 - 1) (1 * 1) = _
    norm_num [numwinOf, cexMat, featRows]
  have hmem : bodyRow cexMat 1 1 1 1 ∈ getfTDDfeat_v2 cexMat 1 1 1 := by
    rw [e]
    exact List.mem_singleton_self _
  have h6 : (bodyRow cexMat 1 1 1 1).length = 6 := by
    rw [bodyRow_length_raw]
    simp [sliceRows, cexMat]
  have h12 := hrows _ hmem
  rw [h6] at h12
  simp [cexMat] at h12

/-- C2 (amended): for `winsize ≤ datasize`, `1 ≤ steps ≤ numwin`,
`wininc ≥ 1` AND `Nsignals ≤ winsize`, the output of `getfTDDfeat_v2`
has shape exactly `(floor((datasize - winsize)/wininc) + 1 - steps,
Nsignals * 6)`. -/
theorem C2_output_shape (x : Mat) (steps winsize wininc : ℕ)
    (hwd : winsize ≤ x.rows) (hs : steps ≤ numwinOf x.rows winsize wininc)
    (hinc : 1 ≤ wininc) (hcw : x.cols ≤ winsize) :
    hasShape (getfTDDfeat_v2 x steps winsize wininc)
      (numwinOf x.rows winsize wininc - steps) (x.cols * 6) :=
  getfTDD_shape x steps winsize wininc hwd hinc hcw

theorem C2_output_shape_witness :
    2 ≤ wMat.rows ∧ 1 ≤ numwinOf wMat.rows 2 1 ∧ 1 ≤ 1 ∧ wMat.cols ≤ 2 ∧
    hasShape (getfTDDfeat_v2 wMat 1 2 1) (numwinOf wMat.rows 2 1 - 1) (wMat.cols * 6) :=
  ⟨by decide, by decide, by decide, by decide,
    C2_output_shape wMat 1 2 1 (by decide) (by decide) (by decide) (by decide)⟩

/-- C8: a 1D input is treated as a single-column 2D array: the result
coincides with running the pipeline on the `(datasize, 1)` column
matrix, and (for valid parameters) the output has shape
`(numwin - steps, 6)`. -/
theorem C8_1d_input (v : List ℝ) (steps winsize wininc : ℕ)
    (hw1 : 1 ≤ winsize) (hwd : winsize ≤ v.length)
    (hs : steps ≤ numwinOf v.length winsize wininc) (hinc : 1 ≤ wininc) :
    getfTDDfeat_v2_1d v steps winsize wininc =
      getfTDDfeat_v2 (colMat v) steps winsize wininc ∧
    hasShape (getfTDDfeat_v2_1d v steps winsize wininc)
      (numwinOf v.length winsize wininc - steps) 6 := by
  refine ⟨rfl, ?_⟩
  have h := getfTDD_shape (colMat v) steps winsize wininc hwd hinc hw1
  simpa [colMat, getfTDDfeat_v2_1d] using h

theorem C8_1d_input_witness :
    1 ≤ 2 ∧ 2 ≤ [(0:ℝ), 1, 2, 3].length ∧
    1 ≤ numwinOf [(0:ℝ), 1, 2, 3].length 2 1 ∧ 1 ≤ 1 ∧
    (getfTDDfeat_v2_1d [(0:ℝ), 1, 2, 3] 1 2 1 =
      getfTDDfeat_v2 (colMat [(0:ℝ), 1, 2, 3]) 1 2 1 ∧
    hasShape (getfTDDfeat_v2_1d [(0:ℝ), 1, 2, 3] 1 2 1)
      (numwinOf [(0:ℝ), 1, 2, 3].length 2 1 - 1) 6) :=
  ⟨by decide, by decide, by decide, by decide,
    C8_1d_input [(0:ℝ), 1, 2, 3] 1 2 1 (by decide) (by decide) (by decide) (by decide)⟩

/-- C9: every row-slice bound used by the loop stays inside the
input: at iteration `i` the current window runs over
`[(i+steps)*wininc, (i+steps)*wininc + winsize) ⊆ [0, datasize)`, the
lagged bounds subtract to `i*wininc`, stay nonnegative and inside, and
both extracted windows have exactly `winsize` rows. -/
theorem C9_slice_bounds (x : Mat) (steps winsize wininc i : ℕ)
    (hw1 : 1 ≤ winsize) (hwd : winsize ≤ x.rows) (hs1 : 1 ≤ steps)
    (hs2 : steps ≤ numwinOf x.rows winsize wininc) (hinc : 1 ≤ wininc)
    (hi : i < numwinOf x.rows winsize wininc - steps) :
    steps * wininc ≤ (i + steps) * wininc ∧
    (i + steps) * wininc < (i + steps) * wininc + winsize ∧
    (i + steps) * wininc + winsize ≤ x.rows ∧
    (i + steps) * wininc - steps * wininc = i * wininc ∧
    (i + steps) * wininc + winsize - steps * wininc ≤ x.rows ∧
    (sliceRows x ((i + steps) * wininc) ((i + steps) * wininc + winsize)).rows = winsize ∧
    (sliceRows x ((i + steps) * wininc - steps * wininc)
      ((i + steps) * wininc + winsize - steps * wininc)).rows = winsize := by
  have hb := window_bound x.rows winsize wininc steps i hinc hwd hi
  have e : (i + steps) * wininc = i * wininc + steps * wininc := by ring
  refine ⟨by omega, by omega, hb, by omega, by omega, ?_, ?_⟩
  · rw [sliceRows_rows x _ _ (by omega) hb]
    omega
  · rw [sliceRows_rows x _ _ (by omega) (by omega)]
    omega

theorem C9_slice_bounds_witness :
    1 ≤ 2 ∧ 2 ≤ wMat.rows ∧ 1 ≤ 1 ∧ 1 ≤ numwinOf wMat.rows 2 1 ∧ 1 ≤ 1 ∧
    0 < numwinOf wMat.rows 2 1 - 1 ∧
    (1 * 1 ≤ (0 + 1) * 1 ∧
     (0 + 1) * 1 < (0 + 1) * 1 + 2 ∧
     (0 + 1) * 1 + 2 ≤ wMat.rows ∧
     (0 + 1) * 1 - 1 * 1 = 0 * 1 ∧
     (0 + 1) * 1 + 2 - 1 * 1 ≤ wMat.rows ∧
     (sliceRows wMat ((0 + 1) * 1) ((0 + 1) * 1 + 2)).rows = 2 ∧
     (sliceRows wMat ((0 + 1) * 1 - 1 * 1) ((0 + 1) * 1 + 2 - 1 * 1)).rows = 2) :=
  ⟨by decide, by decide, by decide, by decide, by decide, by decide,
    C9_slice_bounds wMat 1 2 1 0 (by decide) (by decide) (by decide) (by decide)
      (by decide) (by decide)⟩

/-- C10: with `steps = numwin` the loop runs zero times:
`getfTDDfeat_v2` returns the empty feature matrix (0 rows, and
vacuously `Nsignals * 6` columns) without error. -/
theorem C10_steps_eq_numwin (x : Mat) (steps winsize wininc : ℕ)
    (h : steps = numwinOf x.rows winsize wininc) :
    getfTDDfeat_v2 x steps winsize wininc = [] ∧
    hasShape (getfTDDfeat_v2 x steps winsize wininc) 0 (x.cols * 6) := by
  have e : numwinOf x.rows winsize wininc - steps = 0 := by omega
  have hnil : getfTDDfeat_v2 x steps winsize wininc = [] := by
    unfold getfTDDfeat_v2
    rw [e]
    rfl
  refine ⟨hnil, ?_⟩
  rw [hnil]
  exact ⟨rfl, by intro r hr; simp at hr⟩

theorem C10_steps_eq_numwin_witness :
    3 = numwinOf wMat.rows 2 1 ∧
    (getfTDDfeat_v2 wMat 3 2 1 = [] ∧
      hasShape (getfTDDfeat_v2 wMat 3 2 1) 0 (wMat.cols * 6)) :=
  ⟨by decide, C10_steps_eq_numwin wMat 3 2 1 (by decide)⟩

/-! ### Claim C1 -/

/-- C1: for valid parameters and `i < numwin - steps`, row `i` of the
output equals `(num - den) * (num2 - den2)` elementwise, where `num`
and `den` come from `ebp = KSM1(lagwin)` and
`efp = KSM1(log(lagwin^2 + eps)^2)` on the lagged window
`x[i*wininc : i*wininc + winsize]`, and `num2`, `den2` are the same
quantities on the current window
`x[(i+steps)*wininc : (i+steps)*wininc + winsize]`. -/
theorem C1_row_formula (x : Mat) (steps winsize wininc i : ℕ)
    (hwd : winsize ≤ x.rows) (hs1 : 1 ≤ steps)
    (hs2 : steps < numwinOf x.rows winsize wininc) (hinc : 1 ≤ wininc)
    (hi : i < numwinOf x.rows winsize wininc - steps) :
    (getfTDDfeat_v2 x steps winsize wininc)[i]? =
      some (List.zipWith (fun a b => a * b)
        (List.zipWith (fun a b => a - b)
          (numOf (sliceRows x (i * wininc) (i * wininc + winsize)))
          (denOf (sliceRows x (i * wininc) (i * wininc + winsize))))
        (List.zipWith (fun a b => a - b)
          (numOf (sliceRows x ((i + steps) * wininc) ((i + steps) * wininc + winsize)))
          (denOf (sliceRows x ((i + steps) * wininc) ((i + steps) * wininc + winsize))))) := by
  unfold getfTDDfeat_v2
  rw [featRows_getElem x steps winsize wininc (steps * wininc) hi]
  unfold bodyRow
  have e1 : steps * wininc + i * wininc - steps * wininc = i * wininc := by omega
  have e2 : steps * wininc + i * wininc + winsize - steps * wininc = i * wininc + winsize := by
    omega
  have e3 : steps * wininc + i * wininc = (i + steps) * wininc := by ring
  rw [e1, e2, e3]

theorem C1_row_formula_witness :
    2 ≤ wMat.rows ∧ 1 ≤ 1 ∧ 1 < numwinOf wMat.rows 2 1 ∧ 1 ≤ 1 ∧
    0 < numwinOf wMat.rows 2 1 - 1 ∧
    (getfTDDfeat_v2 wMat 1 2 1)[0]? =
      some (List.zipWith (fun a b => a * b)
        (List.zipWith (fun a b => a - b)
          (numOf (sliceRows wMat (0 * 1) (0 * 1 + 2)))
          (denOf (sliceRows wMat (0 * 1) (0 * 1 + 2))))
        (List.zipWith (fun a b => a - b)
          (numOf (sliceRows wMat ((0 + 1) * 1) ((0 + 1) * 1 + 2)))
          (denOf (sliceRows wMat ((0 + 1) * 1) ((0 + 1) * 1 + 2))))) :=
  ⟨by decide, by decide, by decide, by decide, by decide,
    C1_row_formula wMat 1 2 1 0 (by decide) (by decide) (by decide) (by decide) (by decide)⟩

/-! ### Block access helpers for the flattened KSM1 output -/

theorem getBlock (f : ℕ → ℝ) (l : List ℝ) (c j : ℕ) (hj : j < c) :
    (((List.range c).map f) ++ l)[j]? = some (f j) := by
  rw [List.getElem?_append_left (by simpa using hj)]
  rw [List.getElem?_map, List.getElem?_range hj, Option.map_some']

theorem lastBlock (f : ℕ → ℝ) (c j : ℕ) (hj : j < c) :
    ((List.range c).map f)[j]? = some (f j) := by
  rw [List.getElem?_map, List.getElem?_range hj, Option.map_some']

theorem skipBlock (f : ℕ → ℝ) (l : List ℝ) (c n : ℕ) (hn : c ≤ n) :
    (((List.range c).map f) ++ l)[n]? = l[n - c]? := by
  have hl : ((List.range c).map f).length = c := by simp
  rw [List.getElem?_append_right (by simpa [hl] using hn), hl]

/-! ### Claims C3, C4, C6 -/

/-- C3: for a correctly oriented window (`samples ≥ channels`,
`samples ≥ 3`), `KSM1` returns a vector of length `6 * channels`,
flattened moment-major: entries `0..c-1` are `log|m0|` per channel,
entries `c..2c-1` are `log|m0-m2|`, then `log|m0-m4|`, `log|sparsi|`,
`log|IRF|`, `log|WLR|`. -/
theorem C3_KSM1_layout (S : Mat) (hc : S.cols ≤ S.rows) (h3 : 3 ≤ S.rows) :
    (KSM1 S).length = 6 * S.cols ∧
    ∀ j, j < S.cols →
      (KSM1 S)[j]? = some (Real.log (abs (m0val S j))) ∧
      (KSM1 S)[S.cols + j]? = some (Real.log (abs (m0val S j - m2val S j))) ∧
      (KSM1 S)[2 * S.cols + j]? = some (Real.log (abs (m0val S j - m4val S j))) ∧
      (KSM1 S)[3 * S.cols + j]? = some (Real.log (abs (sparsiVal S j))) ∧
      (KSM1 S)[4 * S.cols + j]? = some (Real.log (abs (IRFval S j))) ∧
      (KSM1 S)[5 * S.cols + j]? = some (Real.log (abs (WLRval S j))) := by
  have hK : KSM1 S = KSM1body S := by
    unfold KSM1
    rw [orient_of_le S hc]
  constructor
  · rw [hK, KSM1body_length]
  · intro j hj
    rw [hK]
    unfold KSM1body
    refine ⟨?_, ?_, ?_, ?_, ?_, ?_⟩
    · rw [getBlock _ _ _ _ hj]
    · rw [skipBlock _ _ _ _ (by omega),
        show S.cols + j - S.cols = j from by omega, getBlock _ _ _ _ hj]
    · rw [skipBlock _ _ _ _ (by omega),
        show 2 * S.cols + j - S.cols = S.cols + j from by omega,
        skipBlock _ _ _ _ (by omega),
        show S.cols + j - S.cols = j from by omega, getBlock _ _ _ _ hj]
    · rw [skipBlock _ _ _ _ (by omega),
        show 3 * S.cols + j - S.cols = 2 * S.cols + j from by omega,
        skipBlock _ _ _ _ (by omega),
        show 2 * S.cols + j - S.cols = S.cols + j from by omega,
        skipBlock _ _ _ _ (by omega),
        show S.cols + j - S.cols = j from by omega, getBlock _ _ _ _ hj]
    · rw [skipBlock _ _ _ _ (by omega),
        show 4 * S.cols + j - S.cols = 3 * S.cols + j from by omega,
        skipBlock _ _ _ _ (by omega),
        show 3 * S.cols + j - S.cols = 2 * S.cols + j from by omega,
        skipBlock _ _ _ _ (by omega),
        show 2 * S.cols + j - S.cols = S.cols + j from by omega,
        skipBlock _ _ _ _ (by omega),
        show S.cols + j - S.cols = j from by omega, getBlock _ _ _ _ hj]
    · rw [skipBlock _ _ _ _ (by omega),
        show 5 * S.cols + j - S.cols = 4 * S.cols + j from by omega,
        skipBlock _ _ _ _ (by omega),
        show 4 * S.cols + j - S.cols = 3 * S.cols + j from by omega,
        skipBlock _ _ _ _ (by omega),
        show 3 * S.cols + j - S.cols = 2 * S.cols + j from by omega,
        skipBlock _ _ _ _ (by omega),
        show 2 * S.cols + j - S.cols = S.cols + j from by omega,
        skipBlock _ _ _ _ (by omega),
        show S.cols + j - S.cols = j from by omega, lastBlock _ _ _ hj]

theorem C3_KSM1_layout_witness :
    (constMat 3 1).cols ≤ (constMat 3 1).rows ∧ 3 ≤ (constMat 3 1).rows ∧
    ((KSM1 (constMat 3 1)).length = 6 * (constMat 3 1).cols ∧
    ∀ j, j < (constMat 3 1).cols →
      (KSM1 (constMat 3 1))[j]? = some (Real.log (abs (m0val (constMat 3 1) j))) ∧
      (KSM1 (constMat 3 1))[(constMat 3 1).cols + j]? =
        some (Real.log (abs (m0val (constMat 3 1) j - m2val (constMat 3 1) j))) ∧
      (KSM1 (constMat 3 1))[2 * (constMat 3 1).cols + j]? =
        some (Real.log (abs (m0val (constMat 3 1) j - m4val (constMat 3 1) j))) ∧
      (KSM1 (constMat 3 1))[3 * (constMat 3 1).cols + j]? =
        some (Real.log (abs (sparsiVal (constMat 3 1) j))) ∧
      (KSM1 (constMat 3 1))[4 * (constMat 3 1).cols + j]? =
        some (Real.log (abs (IRFval (constMat 3 1) j))) ∧
      (KSM1 (constMat 3 1))[5 * (constMat 3 1).cols + j]? =
        some (Real.log (abs (WLRval (constMat 3 1) j)))) :=
  ⟨by decide, by decide, C3_KSM1_layout (constMat 3 1) (by decide) (by decide)⟩

/-- C4 (counterexample): for the constant `3 × 1` window, the
pad-then-diff first difference `d1` has `2` rows, not the `3` rows of
`S` that the claim asserts. -/
theorem C4_d1_rows_counterexample :
    ¬ ((d1of (constMat 3 1)).rows = (constMat 3 1).rows) := by
  decide

/-- C4 (amended): `d1` has one row FEWER than `S` (`samples - 1`
rows), and `d2` has one row fewer than `d1` (`samples - 2` rows): the
pad-then-diff pattern `diff(concat(zeros, diff(S)))` loses one row net,
because the inner `diff` drops one row, the zero-row pad restores it,
and the outer `diff` drops one again. -/
theorem C4_diff_rows (S : Mat) (h3 : 3 ≤ S.rows) (hc : S.cols ≤ S.rows) :
    (d1of S).rows = S.rows - 1 ∧ (d2of S).rows = (d1of S).rows - 1 := by
  simp only [d1of, d2of, diffRows, padZeroRow]
  omega

theorem C4_diff_rows_witness :
    3 ≤ (constMat 3 1).rows ∧ (constMat 3 1).cols ≤ (constMat 3 1).rows ∧
    ((d1of (constMat 3 1)).rows = (constMat 3 1).rows - 1 ∧
      (d2of (constMat 3 1)).rows = (d1of (constMat 3 1)).rows - 1) :=
  ⟨by decide, by decide, C4_diff_rows (constMat 3 1) (by decide) (by decide)⟩

/-- C6: feeding `KSM1` the transposed window `(channels, samples)`
with `channels < samples` produces exactly the same output vector as
the correctly oriented window: the transpose guard fires and undoes
the transposition. -/
theorem C6_transpose_guard (S : Mat) (h : S.cols < S.rows) (h3 : 3 ≤ S.rows) :
    KSM1 (transposeM S) = KSM1 S := by
  unfold KSM1
  rw [orient_transposeM S h, orient_of_le S (le_of_lt h)]

theorem C6_transpose_guard_witness :
    (constMat 3 1).cols < (constMat 3 1).rows ∧ 3 ≤ (constMat 3 1).rows ∧
    KSM1 (transposeM (constMat 3 1)) = KSM1 (constMat 3 1) :=
  ⟨by decide, by decide, C6_transpose_guard (constMat 3 1) (by decide) (by decide)⟩

/-! ### Claim C5 -/

/-- C5 (counterexample): on the `1 × 1` window `S = [[1]]` with
`k = 4`, the pre-normalisation zeroth moment of the scaled window is
`4^0.1`, not `4^0.2 * m0pre(S) = 4^0.2`: the claimed exponent `0.2` is
wrong. -/
theorem C5_scaling_counterexample :
    ¬ (m0pre (scaleM 4 (constMat 1 1)) 0 =
        (4 : ℝ) ^ ((0.2 : ℝ)) * m0pre (constMat 1 1) 0) := by
  have h1 : m0pre (constMat 1 1) 0 = 1 := by
    unfold m0pre
    simp [constMat, Finset.sum_range_one, Real.sqrt_one, Real.one_rpow]
  have h2 : m0pre (scaleM 4 (constMat 1 1)) 0 = (4 : ℝ) ^ ((0.1 : ℝ)) := by
    unfold m0pre
    have hsum : (Finset.sum (Finset.range (scaleM 4 (constMat 1 1)).rows)
        fun i => ((scaleM 4 (constMat 1 1)).entry i 0) ^ 2) = 16 := by
      simp [scaleM, constMat, Finset.sum_range_one]
      norm_num
    rw [hsum, show (16 : ℝ) = 4 ^ 2 from by norm_num,
      Real.sqrt_sq (by norm_num : (0 : ℝ) ≤ 4)]
  rw [h1, h2, mul_one]
  exact ne_of_lt ((Real.rpow_lt_rpow_left_iff (by norm_num)).mpr (by norm_num))

/-- C5 (amended): for `k > 0`, scaling the window by `k` scales the
pre-normalisation zeroth moment by `k^0.1` (not `k^0.2`):
`sum(S^2)` scales by `k^2`, its square root by `k`, and the `**0.1`
power turns that into `k^0.1`. -/
theorem C5_m0_scaling (S : Mat) (k : ℝ) (hc : S.cols ≤ S.rows) (hk : 0 < k) (j : ℕ) :
    m0pre (scaleM k S) j = k ^ ((0.1 : ℝ)) * m0pre S j := by
  unfold m0pre
  have hsum : (Finset.sum (Finset.range (scaleM k S).rows)
      fun i => ((scaleM k S).entry i j) ^ 2) =
      k ^ 2 * Finset.sum (Finset.range S.rows) fun i => (S.entry i j) ^ 2 := by
    simp only [scaleM]
    rw [Finset.mul_sum]
    exact Finset.sum_congr rfl fun i _ => by ring
  rw [hsum, Real.sqrt_mul (sq_nonneg k), Real.sqrt_sq hk.le,
    Real.mul_rpow hk.le (Real.sqrt_nonneg _)]

theorem C5_m0_scaling_witness :
    (constMat 1 1).cols ≤ (constMat 1 1).rows ∧ (0 : ℝ) < 2 ∧
    m0pre (scaleM 2 (constMat 1 1)) 0 = (2 : ℝ) ^ ((0.1 : ℝ)) * m0pre (constMat 1 1) 0 :=
  ⟨by decide, by norm_num,
    C5_m0_scaling (constMat 1 1) 2 (by decide) (by norm_num) 0⟩

/-! ### Claim C7 -/

/-- Helper: for a constant nonzero single-channel window, `m0` is
strictly positive. -/
theorem m0val_const_pos (n : ℕ) (c : ℝ) (hn : 0 < n) (hc : c ≠ 0) :
    0 < m0val (constMat n c) 0 := by
  unfold m0val m0pre
  have hsum : (Finset.sum (Finset.range (constMat n c).rows)
      fun i => ((constMat n c).entry i 0) ^ 2) = (n : ℝ) * c ^ 2 := by
    simp [constMat, Finset.sum_const, Finset.card_range, nsmul_eq_mul]
  have hc2 : (0 : ℝ) < c ^ 2 := (sq_nonneg c).lt_of_ne (Ne.symm (pow_ne_zero 2 hc))
  have hpos : (0 : ℝ) < (n : ℝ) * c ^ 2 :=
    mul_pos (by exact_mod_cast hn) hc2
  rw [hsum]
  exact div_pos (Real.rpow_pos_of_pos (Real.sqrt_pos.mpr hpos) _) (by norm_num)

/-- Helper: every entry of `d1` of a constant window is zero. -/
theorem d1of_const_zero (n : ℕ) (c : ℝ) :
    ∀ i j, (d1of (constMat n c)).entry i j = 0 := by
  intro i j
  simp [d1of, diffRows, padZeroRow, constMat]

/-- Helper: every entry of `d2` of a constant window is zero. -/
theorem d2of_const_zero (n : ℕ) (c : ℝ) :
    ∀ i j, (d2of (constMat n c)).entry i j = 0 := by
  intro i j
  have h1 := d1of_const_zero n c
  simp only [d2of, diffRows, padZeroRow]
  simp [h1]

/-- Helper: `m2` of a constant window is zero. -/
theorem m2val_const_zero (n : ℕ) (c : ℝ) : m2val (constMat n c) 0 = 0 := by
  unfold m2val
  rw [Finset.sum_eq_zero fun i _ => by rw [d1of_const_zero n c i 0]; norm_num]
  rw [zero_div, Real.sqrt_zero, Real.zero_rpow (by norm_num), zero_div]

/-- Helper: `m4` of a constant window is zero. -/
theorem m4val_const_zero (n : ℕ) (c : ℝ) : m4val (constMat n c) 0 = 0 := by
  unfold m4val
  rw [Finset.sum_eq_zero fun i _ => by rw [d2of_const_zero n c i 0]; norm_num]
  rw [zero_div, Real.sqrt_zero, Real.zero_rpow (by norm_num), zero_div]

/-- C7 (counterexample): on the constant window `c = 1` over `3`
samples, the sparseness quotient is NOT of the `0/0` indeterminate
kind: its numerator `m0` is strictly positive (the quotient equals
`m0 / m0 = 1`), so the claim that the sparseness entry is NaN is
false. -/
theorem C7_sparsi_counterexample :
    ¬ zeroOverZero (sparsiNum (constMat 3 1) 0) (sparsiDen (constMat 3 1) 0) := by
  rintro ⟨h1, _⟩
  have := m0val_const_pos 3 1 (by norm_num) (by norm_num)
  unfold sparsiNum at h1
  rw [h1] at this
  exact lt_irrefl 0 this

/-- C7 (amended): for a constant nonzero single-channel window over
`winsize ≥ 3` samples, `d1` and `d2` vanish identically, so
`m2 = m4 = 0`; the irregularity-factor quotient is `0/0`-indeterminate
(IEEE NaN), but the sparseness quotient is NOT: its numerator
`m0 > 0` and its denominator equals `m0`, so sparseness evaluates to
`1`; `KSM1` still returns a full length-6 feature vector (no
exception). -/
theorem C7_constant_window (n : ℕ) (c : ℝ) (h3 : 3 ≤ n) (hc : c ≠ 0) :
    (∀ i j, (d1of (constMat n c)).entry i j = 0) ∧
    (∀ i j, (d2of (constMat n c)).entry i j = 0) ∧
    m2val (constMat n c) 0 = 0 ∧
    m4val (constMat n c) 0 = 0 ∧
    zeroOverZero (IRFnum (constMat n c) 0) (IRFden (constMat n c) 0) ∧
    ¬ zeroOverZero (sparsiNum (constMat n c) 0) (sparsiDen (constMat n c) 0) ∧
    sparsiVal (constMat n c) 0 = 1 ∧
    (KSM1 (constMat n c)).length = 6 := by
  have hm0 := m0val_const_pos n c (by omega) hc
  have hm2 := m2val_const_zero n c
  have hm4 := m4val_const_zero n c
  refine ⟨d1of_const_zero n c, d2of_const_zero n c, hm2, hm4, ?_, ?_, ?_, ?_⟩
  · constructor
    · unfold IRFnum
      exact hm2
    · unfold IRFden
      rw [hm4, mul_zero, Real.sqrt_zero]
  · rintro ⟨h1, _⟩
    unfold sparsiNum at h1
    rw [h1] at hm0
    exact lt_irrefl 0 hm0
  · unfold sparsiVal sparsiNum sparsiDen
    rw [hm2, hm4, sub_zero,
      abs_of_nonneg (mul_self_nonneg _), Real.sqrt_mul_self hm0.le]
    exact div_self (ne_of_gt hm0)
  · rw [KSM1_length]
    simp only [constMat]
    omega

theorem C7_constant_window_witness :
    3 ≤ 3 ∧ (2 : ℝ) ≠ 0 ∧
    ((∀ i j, (d1of (constMat 3 2)).entry i j = 0) ∧
    (∀ i j, (d2of (constMat 3 2)).entry i j = 0) ∧
    m2val (constMat 3 2) 0 = 0 ∧
    m4val (constMat 3 2) 0 = 0 ∧
    zeroOverZero (IRFnum (constMat 3 2) 0) (IRFden (constMat 3 2) 0) ∧
    ¬ zeroOverZero (sparsiNum (constMat 3 2) 0) (sparsiDen (constMat 3 2) 0) ∧
    sparsiVal (constMat 3 2) 0 = 1 ∧
    (KSM1 (constMat 3 2)).length = 6) :=
  ⟨by decide, by norm_num, C7_constant_window 3 2 (by decide) (by norm_num)⟩
